import Mathlib

/-!
Verification of the streaming frame synchronizer, frame decoder and command
encoder of `serials_main.py` (class `SerialThread`).

Modelling conventions:
* Bytes are `Nat` values (the Python code manipulates `bytearray` entries,
  which are integers in `0..255`; none of the verified logic depends on the
  upper bound).
* Wall-clock instants (`time.time()`) are rationals; the governor interval
  `min_frame_interval = 0.01` becomes `(1 : ℚ) / 100`.
* The decoder's eight channels are represented by their 32-bit little-endian
  bit patterns (`struct.unpack('f', ...)` is a bijection between 4-byte
  strings and IEEE-754 single-precision bit patterns, and it never raises on
  a 4-byte input, so the NaN fallback of the source is dead code; equality of
  emitted channels is equality of these patterns).
* Signal emissions (`data_received` / `parsed_data_received`) become return
  values: `parse_buffer` returns the new synchronizer state together with the
  (at most one) decoded record it emitted.
-/

set_option maxRecDepth 10000

namespace SerialsMonitor

/-- The 32-bit little-endian word assembled from four bytes; the bit pattern
`struct.unpack('f', bytes([b0,b1,b2,b3]))` reinterprets as a float. -/
def leWord32 (b0 b1 b2 b3 : Nat) : Nat :=
  b0 + 256 * (b1 + 256 * (b2 + 256 * b3))

/-- A decoded frame: eight channel values (as little-endian IEEE-754 bit
patterns) plus the two flag bytes, mirroring the list
`floats + [flag1, flag2]` emitted by `SerialThread.process_frame`. -/
structure Record where
  channels : List Nat
  flag1 : Nat
  flag2 : Nat
deriving DecidableEq

/-- The eight channel bit patterns of a 36-byte frame: for `i in range(8)`,
bytes `4*i .. 4*i+3` are read little-endian (`struct.unpack('f', ...)`). -/
def decodeChannels (frame : List Nat) : List Nat :=
  (List.range 8).map fun i =>
    leWord32 (frame.getD (4 * i) 0) (frame.getD (4 * i + 1) 0)
      (frame.getD (4 * i + 2) 0) (frame.getD (4 * i + 3) 0)

/-- `SerialThread.process_frame`: reject a frame whose length is not 36 or
whose bytes 34/35 are not the trailer `0x80 0x7F`; otherwise decode the eight
floats and copy the two flag bytes verbatim.  `none` models the error path
(an error string is emitted, no record). -/
def process_frame (frame : List Nat) : Option Record :=
  if frame.length ≠ 36 then
    none
  else if frame.getD 34 0 = 0x80 ∧ frame.getD 35 0 = 0x7F then
    some ⟨decodeChannels frame, frame.getD 32 0, frame.getD 33 0⟩
  else
    none

/-- The delimiter scan of `SerialThread.parse_buffer`
(`for i in range(buffer_len - 1)`): find the first index `i` (the accumulator
argument holds the absolute index of the list head) with
`buffer[i] == 0x80 and buffer[i+1] == 0x7F` at which extraction fires, i.e.
with `frame_start = i + 1 - 35 >= 0` (equivalently `34 ≤ i`).  Matches at
`i < 34` fall through the `if frame_start >= 0` test and the loop continues,
exactly as here. -/
def scanTrailer : List Nat → Nat → Option Nat
  | a :: b :: rest, i =>
    if a = 0x80 ∧ b = 0x7F ∧ 34 ≤ i then some i
    else scanTrailer (b :: rest) (i + 1)
  | _, _ => none

/-- The per-connection synchronizer state of `SerialThread`: the byte
accumulation buffer `data_buffer`, the governor's `last_process_time`, and
`frame_count`. -/
structure SyncState where
  buffer : List Nat
  lastProcessTime : ℚ
  frameCount : Nat
deriving DecidableEq

/-- `min_frame_interval = 0.01` seconds. -/
def minFrameInterval : ℚ := 1 / 100

/-- `SerialThread.parse_buffer`, called at wall-clock instant `now`:
1. rate gate: return unchanged if `now - last_process_time < 0.01`,
   otherwise set `last_process_time = now`;
2. return if fewer than 36 bytes are buffered;
3. scan for the first actionable trailer match (see `scanTrailer`); on ahit
   at `i`, extract `buffer[i-34 : i+2]`, emit its decode, count the frame and
   delete `buffer[: i+2]`; the source's guards `frame_end + 1 <= buffer_len`
   and `len(frame) == 36` are kept (their failure branches are dead, since a
   match at `i` requires `i + 1 < len(buffer)`);
4. otherwise, if more than 1000 bytes are buffered, keep only the last 200. -/
def parse_buffer (st : SyncState) (now : ℚ) : SyncState × Option Record :=
  if now - st.lastProcessTime < minFrameInterval then
    (st, none)
  else
    let stT : SyncState := { st with lastProcessTime := now }
    if stT.buffer.length < 36 then
      (stT, none)
    else
      match scanTrailer stT.buffer 0 with
      | some i =>
        if i + 2 ≤ stT.buffer.length then
          let frame := (stT.buffer.drop (i - 34)).take 36
          if frame.length = 36 then
            ({ stT with
                buffer := stT.buffer.drop (i + 2),
                frameCount := stT.frameCount + 1 }, process_frame frame)
          else
            ({ stT with buffer := stT.buffer.drop (i + 2) }, none)
        else
          (stT, none)
      | none =>
        if 1000 < stT.buffer.length then
          if 200 < stT.buffer.length then
            ({ stT with
                buffer := stT.buffer.drop (stT.buffer.length - 200) }, none)
          else (stT, none)
        else (stT, none)

/-- One iteration of the receive loop in `SerialThread.run` for a nonempty
chunk: `data_buffer.extend(data)` followed by `parse_buffer()`. -/
def ingest (st : SyncState) (chunk : List Nat) (now : ℚ) : SyncState × Option Record :=
  parse_buffer { st with buffer := st.buffer ++ chunk } now

/-- Feed a sequence of (chunk, arrival-instant) pairs through the receive
loop, collecting the emitted records in order. -/
def feed : SyncState → List (List Nat × ℚ) → SyncState × List Record
  | st, [] => (st, [])
  | st, (c, tN) :: rest =>
    let step := ingest st c tN
    let next := feed step.1 rest
    (next.1, step.2.toList ++ next.2)

/-- An adjacent delimiter occurrence: bytes `i` and `i+1` of `l` are
`0x80 0x7F` (both inside the list). -/
def pairAt (l : List Nat) (i : Nat) : Prop :=
  i + 1 < l.length ∧ l.getD i 0 = 0x80 ∧ l.getD (i + 1) 0 = 0x7F

instance (l : List Nat) (i : Nat) : Decidable (pairAt l i) := by
  unfold pairAt; infer_instance

/-- Starting from a governor timestamp `t`, every call instant in the list
leaves the rate gate open (`now - last_process_time >= 0.01` at each call). -/
def nonGatedTimes : ℚ → List (List Nat × ℚ) → Prop
  | _, [] => True
  | t, (_, tN) :: rest => t + minFrameInterval ≤ tN ∧ nonGatedTimes tN rest

instance instDecNonGatedTimes :
    ∀ (t : ℚ) (ps : List (List Nat × ℚ)), Decidable (nonGatedTimes t ps)
  | _, [] => .isTrue trivial
  | _, (_, tN) :: rest =>
    have : Decidable (nonGatedTimes tN rest) := instDecNonGatedTimes tN rest
    inferInstanceAs (Decidable (_ ∧ _))

/-- A byte stream that carries exactly one extractable frame, at its very
end: it is at least 36 bytes long, ends with the trailer `0x80 0x7F`, and
every other delimiter occurrence sits at an index `< 34` (hence is never
acted upon by the scan). -/
def goodStream (s : List Nat) : Prop :=
  36 ≤ s.length ∧ pairAt s (s.length - 2) ∧
    ∀ i < s.length, pairAt s i → i < 34 ∨ i = s.length - 2

instance (s : List Nat) : Decidable (goodStream s) := by
  unfold goodStream; infer_instance

/-- The hex-digit characters accepted by the freeform send path:
`"0123456789ABCDEFabcdef"`. -/
def hexDigitChars : List Char :=
  ['0', '1', '2', '3', '4', '5', '6', '7', '8', '9',
   'A', 'B', 'C', 'D', 'E', 'F', 'a', 'b', 'c', 'd', 'e', 'f']

/-- Membership test `c in "0123456789ABCDEFabcdef"`. -/
def isHexChar (c : Char) : Bool := hexDigitChars.contains c

/-- The numeric value of a hex digit (junk value 0 on other characters; only
ever used beneath an `isHexChar` guard). -/
def hexNibble (c : Char) : Nat :=
  if c = '0' then 0 else if c = '1' then 1 else if c = '2' then 2
  else if c = '3' then 3 else if c = '4' then 4 else if c = '5' then 5
  else if c = '6' then 6 else if c = '7' then 7 else if c = '8' then 8
  else if c = '9' then 9 else if c = 'A' then 10 else if c = 'a' then 10
  else if c = 'B' then 11 else if c = 'b' then 11 else if c = 'C' then 12
  else if c = 'c' then 12 else if c = 'D' then 13 else if c = 'd' then 13
  else if c = 'E' then 14 else if c = 'e' then 14 else if c = 'F' then 15
  else if c = 'f' then 15 else 0

/-- The six ASCII whitespace characters of CPython's `Py_ISSPACE`: space,
tab, newline, vertical tab, form feed, carriage return. -/
def isAsciiWhitespace (c : Char) : Bool :=
  c == Char.ofNat 32 || c == Char.ofNat 9 || c == Char.ofNat 10 ||
    c == Char.ofNat 11 || c == Char.ofNat 12 || c == Char.ofNat 13

/-- `bytes.fromhex` (Python ≥ 3.7, `_PyBytes_FromHex`): before each byte,
runs of ASCII whitespace are skipped; a byte is two immediately adjacent hex
digits (whitespace between a pair's two digits is an error); any other
character, or a dangling single digit, raises `ValueError` (modelled as
`none`).  In `send_data` the argument has already had its spaces removed,
but other whitespace (tabs, newlines, ...) may remain and is skipped here. -/
def fromhex : List Char → Option (List Nat)
  | [] => some []
  | c :: rest =>
    if isAsciiWhitespace c then fromhex rest
    else
      match rest with
      | [] => none
      | c2 :: rest2 =>
        if isHexChar c && isHexChar c2 then
          match fromhex rest2 with
          | some bs => some ((16 * hexNibble c + hexNibble c2) :: bs)
          | none => none
        else none

/-- The interpretation of an all-hex string as hex pairs (the value
`bytes.fromhex` returns when it succeeds). -/
def hexPairsDecode : List Char → List Nat
  | c1 :: c2 :: rest => (16 * hexNibble c1 + hexNibble c2) :: hexPairsDecode rest
  | _ => []

/-- The space character (code point 32). -/
def spaceChar : Char := Char.ofNat 32

/-- `data.replace(' ', '')`. -/
def stripSpaces (data : List Char) : List Char :=
  data.filter fun c => c ≠ spaceChar

/-- `if len(hex_str) % 2 != 0: hex_str = '0' + hex_str`. -/
def padEven (l : List Char) : List Char :=
  if l.length % 2 ≠ 0 then '0' :: l else l

/-- The UTF-8 bytes of one code point (`str.encode('utf-8')`, per
character). -/
def utf8Bytes (c : Nat) : List Nat :=
  if c < 0x80 then [c]
  else if c < 0x800 then
    [0xC0 + c / 64, 0x80 + c % 64]
  else if c < 0x10000 then
    [0xE0 + c / 4096, 0x80 + c / 64 % 64, 0x80 + c % 64]
  else
    [0xF0 + c / 262144, 0x80 + c / 4096 % 64, 0x80 + c / 64 % 64, 0x80 + c % 64]

/-- `data.encode('utf-8')` for a `str` of code points. -/
def utf8Encode (data : List Char) : List Nat :=
  (data.map fun ch => utf8Bytes ch.toNat).flatten

/-- `SerialThread.send_data` on an open connection: if the text contains a
space, or its space-stripped form consists solely of hex digits, strip
spaces, left-pad with `'0'` when the length is odd, and run `bytes.fromhex`
(whose `ValueError` is caught and reported as failure, `none`); otherwise
send the UTF-8 encoding of the text.  `some bs` models a successful write of
`bs` returning `True`; `none` models the caught-exception path returning
`False` with no bytes written. -/
def send_data (data : List Char) : Option (List Nat) :=
  if data.contains spaceChar || (stripSpaces data).all isHexChar then
    fromhex (padEven (stripSpaces data))
  else
    some (utf8Encode data)

/-- `SerialThread.send_command` on an open connection: command `0x01` writes
`[0x01, bolt]` when the bolt code is one of `0x04/0x05/0x06` and otherwise
writes nothing and returns `False`; command `0x02` writes `[0x02]`; any
other command writes nothing and returns `False`. -/
def send_command (cmdType : Nat) (boltType : Option Nat) : Option (List Nat) :=
  if cmdType = 0x01 then
    match boltType with
    | some b =>
      if b = 0x04 ∨ b = 0x05 ∨ b = 0x06 then some [cmdType, b] else none
    | none => none
  else if cmdType = 0x02 then
    some [cmdType]
  else
    none

/-! ### Concrete inputs used by witnesses and counterexamples -/

/-- A well-formed frame: 32 zero payload bytes, flags `5`/`6`, trailer. -/
def exFrameA : List Nat := List.replicate 32 0 ++ [5, 6, 0x80, 0x7F]

/-- A second well-formed frame, distinct from `exFrameA`. -/
def exFrameB : List Nat := List.replicate 32 3 ++ [4, 5, 0x80, 0x7F]

/-- Three delimiter-free noise bytes. -/
def exNoise : List Nat := [9, 9, 9]

/-- A 36-byte block whose only delimiter pair is its final two bytes; it is
simultaneously a well-formed frame (all-zero payload and flags). -/
def exStream : List Nat := List.replicate 34 0 ++ [0x80, 0x7F]

/-- A well-formed frame whose first byte is `1` (so its decode differs from
that of `exStream`). -/
def exRealFrame : List Nat := 1 :: (List.replicate 33 0 ++ [0x80, 0x7F])

/-- An oversized delimiter-free buffer (1001 copies of byte `7`). -/
def exBigBuffer : List Nat := List.replicate 1001 7

/-- Freeform send input `"01 04"`. -/
def exHexText : List Char := ['0', '1', spaceChar, '0', '4']

/-- Freeform send input `"hello"`. -/
def exHello : List Char := ['h', 'e', 'l', 'l', 'o']

/-- Freeform send input `"h i"`: contains a space, but its space-stripped
form `"hi"` is not made of hex digits. -/
def exMixed : List Char := ['h', spaceChar, 'i']

/-! ### List index lemmas -/

theorem getD_append_lt : ∀ (u w : List Nat) (j : Nat), j < u.length →
    (u ++ w).getD j 0 = u.getD j 0
  | [], _, _, h => by simp at h
  | _ :: _, _, 0, _ => rfl
  | a :: u, w, j + 1, h => by
    have hj : j < u.length := by simp only [List.length_cons] at h; omega
    simpa only [List.cons_append, List.getD_cons_succ] using getD_append_lt u w j hj

theorem getD_append_add : ∀ (u w : List Nat) (j : Nat),
    (u ++ w).getD (u.length + j) 0 = w.getD j 0
  | [], w, j => by simp
  | a :: u, w, j => by
    have h : (a :: u).length + j = (u.length + j) + 1 := by
      simp only [List.length_cons]; omega
    rw [List.cons_append, h, List.getD_cons_succ, getD_append_add u w j]

theorem pairAt_cons_succ (a : Nat) (l : List Nat) (j : Nat) :
    pairAt (a :: l) (j + 1) ↔ pairAt l j := by
  unfold pairAt
  simp only [List.getD_cons_succ, List.length_cons]
  constructor
  · rintro ⟨h1, h2, h3⟩; exact ⟨by omega, h2, h3⟩
  · rintro ⟨h1, h2, h3⟩; exact ⟨by omega, h2, h3⟩

theorem pairAt_cons_cons_zero (a b : Nat) (l : List Nat) :
    pairAt (a :: b :: l) 0 ↔ a = 0x80 ∧ b = 0x7F := by
  unfold pairAt
  simp only [List.getD_cons_succ, List.getD_cons_zero, List.length_cons]
  constructor
  · rintro ⟨_, h2, h3⟩; exact ⟨h2, h3⟩
  · rintro ⟨h2, h3⟩; exact ⟨by omega, h2, h3⟩

theorem pairAt_append_left (u w : List Nat) (j : Nat) (h : pairAt u j) :
    pairAt (u ++ w) j := by
  obtain ⟨h1, h2, h3⟩ := h
  refine ⟨?_, ?_, ?_⟩
  · simp only [List.length_append]; omega
  · rw [getD_append_lt u w j (by omega)]; exact h2
  · rw [getD_append_lt u w (j + 1) h1]; exact h3

theorem pairAt_append_add (u v : List Nat) (j : Nat) :
    pairAt (u ++ v) (u.length + j) ↔ pairAt v j := by
  unfold pairAt
  rw [getD_append_add u v j,
    show u.length + j + 1 = u.length + (j + 1) by omega, getD_append_add u v (j + 1)]
  simp only [List.length_append]
  constructor
  · rintro ⟨h1, h2, h3⟩; exact ⟨by omega, h2, h3⟩
  · rintro ⟨h1, h2, h3⟩; exact ⟨by omega, h2, h3⟩

/-! ### Characterization of the delimiter scan -/

theorem scanTrailer_eq_none : ∀ (l : List Nat) (k : Nat),
    (∀ j, pairAt l j → k + j < 34) → scanTrailer l k = none
  | [], _, _ => rfl
  | [_], _, _ => rfl
  | a :: b :: rest, k, h => by
    have hrec := scanTrailer_eq_none (b :: rest) (k + 1) (fun j hj => by
      have := h (j + 1) ((pairAt_cons_succ a (b :: rest) j).mpr hj)
      omega)
    unfold scanTrailer
    split
    · next hc =>
      exfalso
      have h0 := h 0 ((pairAt_cons_cons_zero a b rest).mpr ⟨hc.1, hc.2.1⟩)
      have := hc.2.2
      omega
    · exact hrec

theorem scanTrailer_eq_some : ∀ (l : List Nat) (k j0 : Nat),
    pairAt l j0 → 34 ≤ k + j0 → (∀ j, j < j0 → pairAt l j → k + j < 34) →
    scanTrailer l k = some (k + j0)
  | [], _, j0, hp, _, _ => absurd hp.1 (by simp)
  | [_], _, j0, hp, _, _ => absurd hp.1 (by simp)
  | a :: b :: rest, k, j0, hp, h34, hmin => by
    unfold scanTrailer
    split
    · next hc =>
      cases j0 with
      | zero => rfl
      | succ jP =>
        exfalso
        have h0 : pairAt (a :: b :: rest) 0 :=
          (pairAt_cons_cons_zero a b rest).mpr ⟨hc.1, hc.2.1⟩
        have := hmin 0 (Nat.succ_pos jP) h0
        have := hc.2.2
        omega
    · next hc =>
      cases j0 with
      | zero =>
        exfalso
        have h0 := (pairAt_cons_cons_zero a b rest).mp hp
        exact hc ⟨h0.1, h0.2, by omega⟩
      | succ jP =>
        have hpP := (pairAt_cons_succ a (b :: rest) jP).mp hp
        have hrec := scanTrailer_eq_some (b :: rest) (k + 1) jP hpP (by omega)
          (fun j hj hpj => by
            have := hmin (j + 1) (by omega) ((pairAt_cons_succ a (b :: rest) j).mpr hpj)
            omega)
        rw [hrec]
        congr 1
        omega

theorem scanTrailer_some_inv : ∀ (l : List Nat) (k i : Nat),
    scanTrailer l k = some i → ∃ j, i = k + j ∧ pairAt l j ∧ 34 ≤ i
  | [], _, _, h => Option.noConfusion h
  | [_], _, _, h => Option.noConfusion h
  | a :: b :: rest, k, i, h => by
    unfold scanTrailer at h
    split at h
    · next hc =>
      have hk : k = i := Option.some.inj h
      subst hk
      exact ⟨0, by omega,
        (pairAt_cons_cons_zero a b rest).mpr ⟨hc.1, hc.2.1⟩, by have := hc.2.2; omega⟩
    · next =>
      obtain ⟨j, hij, hpj, h34⟩ := scanTrailer_some_inv (b :: rest) (k + 1) i h
      exact ⟨j + 1, by omega, (pairAt_cons_succ a (b :: rest) j).mpr hpj, h34⟩

/-! ### Step lemmas for `parse_buffer` -/

theorem parse_buffer_gated (st : SyncState) (now : ℚ)
    (h : now - st.lastProcessTime < minFrameInterval) :
    parse_buffer st now = (st, none) := by
  unfold parse_buffer
  rw [if_pos h]

theorem parse_buffer_small (st : SyncState) (now : ℚ)
    (hg : minFrameInterval ≤ now - st.lastProcessTime)
    (hlen : st.buffer.length < 36) :
    parse_buffer st now = (⟨st.buffer, now, st.frameCount⟩, none) := by
  simp [parse_buffer, not_lt.mpr hg, hlen]

theorem parse_buffer_noscan (st : SyncState) (now : ℚ)
    (hg : minFrameInterval ≤ now - st.lastProcessTime)
    (hlen : 36 ≤ st.buffer.length)
    (hnp : ∀ j, pairAt st.buffer j → j < 34)
    (hsmall : st.buffer.length ≤ 1000) :
    parse_buffer st now = (⟨st.buffer, now, st.frameCount⟩, none) := by
  have hscan : scanTrailer st.buffer 0 = none :=
    scanTrailer_eq_none st.buffer 0 (fun j hj => by have := hnp j hj; omega)
  simp [parse_buffer, not_lt.mpr hg, (by omega : ¬ st.buffer.length < 36), hscan,
    (by omega : ¬ 1000 < st.buffer.length)]
  intro _ h _
  exact absurd h (by omega)

theorem parse_buffer_evict (st : SyncState) (now : ℚ)
    (hg : minFrameInterval ≤ now - st.lastProcessTime)
    (hnp : ∀ j, pairAt st.buffer j → j < 34)
    (hbig : 1000 < st.buffer.length) :
    parse_buffer st now =
      (⟨st.buffer.drop (st.buffer.length - 200), now, st.frameCount⟩, none) := by
  have hscan : scanTrailer st.buffer 0 = none :=
    scanTrailer_eq_none st.buffer 0 (fun j hj => by have := hnp j hj; omega)
  simp [parse_buffer, not_lt.mpr hg, (by omega : ¬ st.buffer.length < 36), hscan,
    hbig, (by omega : 200 < st.buffer.length)]
  intro h
  exact absurd h (by omega)

theorem parse_buffer_extract (st : SyncState) (now : ℚ) (i : Nat)
    (hg : minFrameInterval ≤ now - st.lastProcessTime)
    (hp : pairAt st.buffer i) (h34 : 34 ≤ i)
    (hmin : ∀ j, j < i → pairAt st.buffer j → j < 34) :
    parse_buffer st now =
      (⟨st.buffer.drop (i + 2), now, st.frameCount + 1⟩,
        process_frame ((st.buffer.drop (i - 34)).take 36)) := by
  obtain ⟨hlt, hb1, hb2⟩ := hp
  have hscan : scanTrailer st.buffer 0 = some i := by
    have := scanTrailer_eq_some st.buffer 0 i ⟨hlt, hb1, hb2⟩ (by omega)
      (fun j hj hpj => by have := hmin j hj hpj; omega)
    simpa using this
  have hflen : ((st.buffer.drop (i - 34)).take 36).length = 36 := by
    rw [List.length_take, List.length_drop]; omega
  simp [parse_buffer, not_lt.mpr hg, (by omega : ¬ st.buffer.length < 36), hscan,
    (by omega : i + 2 ≤ st.buffer.length), hflen]
  omega

theorem drop_append_add : ∀ (u v : List Nat) (k : Nat),
    (u ++ v).drop (u.length + k) = v.drop k
  | [], v, k => by simp
  | a :: u, v, k => by
    have h : (a :: u).length + k = (u.length + k) + 1 := by
      simp only [List.length_cons]; omega
    rw [List.cons_append, h, List.drop_succ_cons, drop_append_add u v k]

theorem getD_take_lt : ∀ (l : List Nat) (n j : Nat), j < n →
    (l.take n).getD j 0 = l.getD j 0
  | [], _, _, _ => by simp
  | _ :: _, 0, _, h => absurd h (by omega)
  | a :: l, n + 1, 0, _ => by simp [List.take_succ_cons]
  | a :: l, n + 1, j + 1, h => by
    simp only [List.take_succ_cons, List.getD_cons_succ]
    exact getD_take_lt l n j (by omega)

theorem getD_drop_add : ∀ (l : List Nat) (m j : Nat),
    (l.drop m).getD j 0 = l.getD (m + j) 0
  | _, 0, _ => by simp
  | [], _ + 1, _ => by simp
  | a :: l, m + 1, j => by
    simp only [List.drop_succ_cons]
    rw [getD_drop_add l m j, show m + 1 + j = (m + j) + 1 by omega,
      List.getD_cons_succ]

theorem getD_replicate (a d : Nat) : ∀ (m i : Nat),
    (List.replicate m a).getD i d = if i < m then a else d
  | 0, i => by simp
  | m + 1, 0 => by simp [List.replicate_succ]
  | m + 1, i + 1 => by
    simp only [List.replicate_succ, List.getD_cons_succ]
    rw [getD_replicate a d m i]
    by_cases h : i < m
    · rw [if_pos h, if_pos (by omega)]
    · rw [if_neg h, if_neg (by omega)]

theorem not_pairAt_replicate_seven (m i : Nat) :
    ¬ pairAt (List.replicate m 7) i := by
  intro h
  obtain ⟨_, h2, _⟩ := h
  rw [getD_replicate] at h2
  split at h2 <;> omega

/-! ### Hex / UTF-8 helper lemmas for the freeform encoder -/

theorem isHexChar_not_ws {c : Char} (h : isHexChar c = true) :
    isAsciiWhitespace c = false := by
  simp [isHexChar, hexDigitChars] at h
  rcases h with rfl | rfl | rfl | rfl | rfl | rfl | rfl | rfl | rfl | rfl | rfl |
    rfl | rfl | rfl | rfl | rfl | rfl | rfl | rfl | rfl | rfl | rfl <;> decide

theorem fromhex_of_allHex : ∀ l : List Char, l.all isHexChar = true →
    l.length % 2 = 0 → fromhex l = some (hexPairsDecode l)
  | [], _, _ => rfl
  | [_], _, h => by simp at h
  | c1 :: c2 :: rest, hall, hlen => by
    simp only [List.all_cons, Bool.and_eq_true] at hall
    obtain ⟨h1, h2, h3⟩ := hall
    have hr : rest.length % 2 = 0 := by
      simp only [List.length_cons] at hlen; omega
    have ih := fromhex_of_allHex rest h3 hr
    simp [fromhex, hexPairsDecode, isHexChar_not_ws h1, h1, h2, ih]

theorem fromhex_of_bad_char : ∀ l : List Char,
    (∃ b ∈ l, isHexChar b = false ∧ isAsciiWhitespace b = false) →
    fromhex l = none
  | [], h => by simp at h
  | [c], h => by
    obtain ⟨b, hb, _, hbw⟩ := h
    have hbc : b = c := by simpa using hb
    subst hbc
    simp [fromhex, hbw]
  | c :: c2 :: rest2, h => by
    obtain ⟨b, hb, hbh, hbw⟩ := h
    by_cases hws : isAsciiWhitespace c = true
    · have hbr : b ∈ c2 :: rest2 := by
        rcases List.mem_cons.mp hb with rfl | hmem
        · rw [hws] at hbw; exact Bool.noConfusion hbw
        · exact hmem
      have ih := fromhex_of_bad_char (c2 :: rest2) ⟨b, hbr, hbh, hbw⟩
      simp [fromhex, hws, ih]
    · have hws' : isAsciiWhitespace c = false := by
        cases hx : isAsciiWhitespace c
        · rfl
        · exact absurd hx hws
      by_cases hhex : (isHexChar c && isHexChar c2) = true
      · have h1 := Bool.and_eq_true_iff.mp hhex
        have hbr : b ∈ rest2 := by
          rcases List.mem_cons.mp hb with rfl | hmem
          · rw [h1.1] at hbh; exact Bool.noConfusion hbh
          · rcases List.mem_cons.mp hmem with rfl | hmem2
            · rw [h1.2] at hbh; exact Bool.noConfusion hbh
            · exact hmem2
        have ih := fromhex_of_bad_char rest2 ⟨b, hbr, hbh, hbw⟩
        simp [fromhex, hws', hhex, ih]
      · have hhex' : (isHexChar c && isHexChar c2) = false := by
          cases hx : (isHexChar c && isHexChar c2)
          · rfl
          · exact absurd hx hhex
        simp [fromhex, hws', hhex']

theorem padEven_all_true (l : List Char) (h : l.all isHexChar = true) :
    (padEven l).all isHexChar = true := by
  unfold padEven
  split
  · rw [List.all_cons, h, Bool.and_true]; decide
  · exact h

theorem mem_padEven {b : Char} (l : List Char) (h : b ∈ l) : b ∈ padEven l := by
  unfold padEven
  split
  · exact List.mem_cons_of_mem _ h
  · exact h

theorem padEven_even (l : List Char) : (padEven l).length % 2 = 0 := by
  unfold padEven
  split
  · next h => simp only [List.length_cons]; omega
  · next h => omega

/-! ### Chunk-invariance induction

The receive loop's emissions over a `goodStream` (§ CLAIMS C1): an invariant
induction over the chunk list.  `pre` is the part of the stream already
dropped from the front of the buffer (by overflow eviction), `buf` the
current buffer contents, so that `pre ++ buf ++ (remaining chunks) = s`; no
record has been emitted yet, and the buffer can only have lost front bytes
after growing past the eviction threshold (hence `pre = [] ∨ 36 ≤ buf.length`). -/

theorem feed_goodStream_aux (s : List Nat) (hgood : goodStream s) :
    ∀ (ps : List (List Nat × ℚ)) (pre buf : List Nat) (t : ℚ) (fc : Nat),
      ps ≠ [] →
      (∀ p ∈ ps, p.1 ≠ []) →
      nonGatedTimes t ps →
      pre ++ (buf ++ (ps.map Prod.fst).flatten) = s →
      (pre = [] ∨ 36 ≤ buf.length) →
      (feed ⟨buf, t, fc⟩ ps).2 = (process_frame (s.drop (s.length - 36))).toList
  | [], _, _, _, _, hne, _, _, _, _ => absurd rfl hne
  | (c, tN) :: rest, pre, buf, t, fc, _, hmem, hgate, hsplit, hinv => by
    obtain ⟨h36, htrail, honly⟩ := hgood
    obtain ⟨hg1, hg2⟩ := hgate
    have hgq : minFrameInterval ≤ tN - t := by linarith
    have hladd : (buf ++ c).length = buf.length + c.length := List.length_append _ _
    match rest with
    | [] =>
      have hsplit' : pre ++ (buf ++ c) = s := by simpa using hsplit
      have hn : s.length = pre.length + (buf ++ c).length := by
        rw [← hsplit']; simp [List.length_append]
      have hl36 : 36 ≤ (buf ++ c).length := by
        rcases hinv with hpre | h36b
        · have hbc : buf ++ c = s := by simpa [hpre] using hsplit'
          have : (buf ++ c).length = s.length := by rw [hbc]
          omega
        · omega
      have hpair : pairAt (buf ++ c) ((buf ++ c).length - 2) := by
        have ht' := htrail
        rw [← hsplit'] at ht'
        have hidx : (pre ++ (buf ++ c)).length - 2 =
            pre.length + ((buf ++ c).length - 2) := by
          simp only [List.length_append]; omega
        rw [hidx] at ht'
        exact (pairAt_append_add pre (buf ++ c) _).mp ht'
      have hmin : ∀ j, j < (buf ++ c).length - 2 → pairAt (buf ++ c) j → j < 34 := by
        intro j hj hpj
        have hps : pairAt (pre ++ (buf ++ c)) (pre.length + j) :=
          (pairAt_append_add pre (buf ++ c) j).mpr hpj
        rw [hsplit'] at hps
        have hlt : pre.length + j < s.length := by have := hps.1; omega
        rcases honly _ hlt hps with h | h
        · omega
        · omega
      have hres := parse_buffer_extract ⟨buf ++ c, t, fc⟩ tN ((buf ++ c).length - 2)
        hgq hpair (by omega) hmin
      have hidx2 : (buf ++ c).length - 2 - 34 = (buf ++ c).length - 36 := by omega
      have hdlen : ((buf ++ c).drop ((buf ++ c).length - 36)).length = 36 := by
        rw [List.length_drop]; omega
      have htake : ((buf ++ c).drop ((buf ++ c).length - 36)).take 36 =
          (buf ++ c).drop ((buf ++ c).length - 36) :=
        List.take_of_length_le (by omega)
      have hXs : (buf ++ c).drop ((buf ++ c).length - 36) = s.drop (s.length - 36) := by
        conv_rhs => rw [← hsplit']
        rw [show (pre ++ (buf ++ c)).length - 36 =
            pre.length + ((buf ++ c).length - 36) by
          simp only [List.length_append]; omega]
        rw [drop_append_add]
      rw [hidx2, htake, hXs] at hres
      simp [feed, ingest, hres]
    | (c2, t2) :: rest' =>
      have hc2 : c2 ≠ [] := hmem (c2, t2) (by simp)
      have hR : (((c2, t2) :: rest').map Prod.fst).flatten ≠ [] := by
        simp only [List.map_cons, List.flatten_cons]
        intro hcon
        exact hc2 (List.append_eq_nil.mp hcon).1
      have hRlen : 1 ≤ (((c2, t2) :: rest').map Prod.fst).flatten.length :=
        List.length_pos.mpr hR
      have hsplit2 : pre ++ ((buf ++ c) ++ (((c2, t2) :: rest').map Prod.fst).flatten)
          = s := by
        rw [← hsplit]
        simp only [List.map_cons, List.flatten_cons, List.append_assoc]
      have hn : s.length = pre.length + ((buf ++ c).length +
          (((c2, t2) :: rest').map Prod.fst).flatten.length) := by
        rw [← hsplit2]; simp [List.length_append]; omega
      have hnp : ∀ j, pairAt (buf ++ c) j → j < 34 := by
        intro j hpj
        have h1 : pairAt ((buf ++ c) ++ (((c2, t2) :: rest').map Prod.fst).flatten) j :=
          pairAt_append_left _ _ j hpj
        have h2 := (pairAt_append_add pre _ j).mpr h1
        rw [hsplit2] at h2
        have hlt : pre.length + j < s.length := by have := h2.1; omega
        rcases honly _ hlt h2 with h | h
        · omega
        · have hjb := hpj.1
          omega
      have hmem' : ∀ p ∈ (c2, t2) :: rest', p.1 ≠ [] :=
        fun p hp => hmem p (List.mem_cons_of_mem _ hp)
      by_cases hsm : (buf ++ c).length < 36
      · have hres := parse_buffer_small ⟨buf ++ c, t, fc⟩ tN hgq hsm
        have hpre : pre = [] := by
          rcases hinv with h | h
          · exact h
          · exact absurd hsm (by omega)
        have ih := feed_goodStream_aux s ⟨h36, htrail, honly⟩ ((c2, t2) :: rest')
          pre (buf ++ c) tN fc (by simp) hmem' hg2 hsplit2 (Or.inl hpre)
        simp only [feed, ingest] at ih ⊢
        simp only [List.append_assoc, List.length_append] at ih
        simp [hres, ih]
      · by_cases hbig : 1000 < (buf ++ c).length
        · have hres := parse_buffer_evict ⟨buf ++ c, t, fc⟩ tN hgq hnp hbig
          have hdlen : ((buf ++ c).drop ((buf ++ c).length - 200)).length = 200 := by
            rw [List.length_drop]; omega
          have hsplit3 : (pre ++ (buf ++ c).take ((buf ++ c).length - 200)) ++
              (((buf ++ c).drop ((buf ++ c).length - 200)) ++
                (((c2, t2) :: rest').map Prod.fst).flatten) = s := by
            rw [List.append_assoc,
              ← List.append_assoc ((buf ++ c).take ((buf ++ c).length - 200))
                ((buf ++ c).drop ((buf ++ c).length - 200)) _,
              List.take_append_drop]
            exact hsplit2
          have ih := feed_goodStream_aux s ⟨h36, htrail, honly⟩ ((c2, t2) :: rest')
            (pre ++ (buf ++ c).take ((buf ++ c).length - 200))
            ((buf ++ c).drop ((buf ++ c).length - 200)) tN fc (by simp) hmem' hg2
            hsplit3 (Or.inr (by omega))
          simp only [feed, ingest] at ih ⊢
          simp only [List.append_assoc, List.length_append] at ih
          simp [hres, ih]
        · have hres := parse_buffer_noscan ⟨buf ++ c, t, fc⟩ tN hgq
            (by show 36 ≤ (buf ++ c).length; omega) hnp
            (by show (buf ++ c).length ≤ 1000; omega)
          have ih := feed_goodStream_aux s ⟨h36, htrail, honly⟩ ((c2, t2) :: rest')
            pre (buf ++ c) tN fc (by simp) hmem' hg2 hsplit2 (Or.inr (by omega))
          simp only [feed, ingest] at ih ⊢
          simp only [List.append_assoc, List.length_append] at ih
          simp [hres, ih]

/-! ### Concrete governor facts (rational arithmetic does not reduce in the
kernel, so these are proved once and passed as explicit terms) -/

theorem gate_0_1 : minFrameInterval ≤ (1 : ℚ) - 0 := by
  norm_num [minFrameInterval]

theorem gate_1_2 : minFrameInterval ≤ (2 : ℚ) - 1 := by
  norm_num [minFrameInterval]

theorem nonGated_exStream_split :
    nonGatedTimes 0 [(exStream.take 10, (1 : ℚ)), (exStream.drop 10, 2)] := by
  refine ⟨?_, ?_, trivial⟩ <;> norm_num [minFrameInterval]

/-! ### Claim theorems -/

/-- C2: for every 36-byte frame whose bytes 34 and 35 are `0x80` and `0x7F`,
`process_frame` emits a record whose eight channel values are the
little-endian 32-bit words (IEEE-754 bit patterns) assembled from bytes
`4*i .. 4*i+3` for `i = 0..7`, and whose flags are bytes 32 and 33 copied
verbatim. -/
theorem C2_decode_fields (frame : List Nat) (hlen : frame.length = 36)
    (h34 : frame.getD 34 0 = 0x80) (h35 : frame.getD 35 0 = 0x7F) :
    process_frame frame = some
      ⟨(List.range 8).map (fun i =>
          frame.getD (4 * i) 0 + 256 * frame.getD (4 * i + 1) 0 +
            65536 * frame.getD (4 * i + 2) 0 + 16777216 * frame.getD (4 * i + 3) 0),
        frame.getD 32 0, frame.getD 33 0⟩ := by
  unfold process_frame
  rw [if_neg (by simp [hlen]), if_pos ⟨h34, h35⟩]
  refine congrArg some ?_
  congr 1
  unfold decodeChannels
  exact congrArg (fun f => List.map f (List.range 8))
    (funext fun i => by unfold leWord32; ring)

/-- Witness for C2 at the concrete frame `exFrameA`. -/
theorem C2_decode_fields_witness :
    exFrameA.length = 36 ∧
    process_frame exFrameA = some
      ⟨(List.range 8).map (fun i =>
          exFrameA.getD (4 * i) 0 + 256 * exFrameA.getD (4 * i + 1) 0 +
            65536 * exFrameA.getD (4 * i + 2) 0 + 16777216 * exFrameA.getD (4 * i + 3) 0),
        exFrameA.getD 32 0, exFrameA.getD 33 0⟩ :=
  ⟨by decide, C2_decode_fields exFrameA (by decide) (by decide) (by decide)⟩

/-- C5: a non-gated `parse_buffer` call on a buffer of more than 1000 bytes
containing no adjacent `0x80 0x7F` pair emits no frame and replaces the
buffer with exactly its last 200 bytes. -/
theorem C5_overflow_eviction (st : SyncState) (now : ℚ)
    (hg : minFrameInterval ≤ now - st.lastProcessTime)
    (hlen : 1000 < st.buffer.length)
    (hnp : ∀ i < st.buffer.length, ¬ pairAt st.buffer i) :
    (parse_buffer st now).2 = none ∧
    (parse_buffer st now).1.buffer = st.buffer.drop (st.buffer.length - 200) := by
  have hnp' : ∀ j, pairAt st.buffer j → j < 34 := by
    intro j hpj
    exact absurd hpj (hnp j (by have := hpj.1; omega))
  have hres := parse_buffer_evict st now hg hnp' hlen
  rw [hres]
  exact ⟨rfl, rfl⟩

/-- Witness for C5 at the 1001-byte delimiter-free buffer `exBigBuffer`. -/
theorem C5_overflow_eviction_witness :
    1000 < exBigBuffer.length ∧
    (parse_buffer ⟨exBigBuffer, 0, 0⟩ 1).2 = none ∧
    (parse_buffer ⟨exBigBuffer, 0, 0⟩ 1).1.buffer =
      exBigBuffer.drop (exBigBuffer.length - 200) := by
  have h := C5_overflow_eviction ⟨exBigBuffer, 0, 0⟩ 1 gate_0_1
    (by simp [exBigBuffer]) (fun i _ => not_pairAt_replicate_seven 1001 i)
  exact ⟨by simp [exBigBuffer], h.1, h.2⟩

/-- C7: the command encoder produces `[0x01, 0x04]` / `[0x01, 0x05]` /
`[0x01, 0x06]` for the three configure commands and `[0x02]` for start; a
configure command with a bolt code outside `{0x04, 0x05, 0x06}` writes no
bytes and reports failure. -/
theorem C7_command_encoder :
    send_command 0x01 (some 0x04) = some [0x01, 0x04] ∧
    send_command 0x01 (some 0x05) = some [0x01, 0x05] ∧
    send_command 0x01 (some 0x06) = some [0x01, 0x06] ∧
    send_command 0x02 none = some [0x02] ∧
    ∀ b, ¬(b = 0x04 ∨ b = 0x05 ∨ b = 0x06) → send_command 0x01 (some b) = none := by
  refine ⟨rfl, rfl, rfl, rfl, ?_⟩
  intro b hb
  simp [send_command, hb]

/-- Witness for C7's quantified conjunct at the invalid bolt code `7`. -/
theorem C7_command_encoder_witness :
    ¬((7 : Nat) = 0x04 ∨ (7 : Nat) = 0x05 ∨ (7 : Nat) = 0x06) ∧
    send_command 0x01 (some 7) = none :=
  ⟨by decide, C7_command_encoder.2.2.2.2 7 (by decide)⟩

/-- C8 (counterexample): the claim asserts that a `parse_buffer` call on a
buffer of fewer than 36 bytes leaves the governor's last-processed timestamp
unchanged.  On a 10-byte buffer with `last_process_time = 0`, a call at
instant `1` sets the timestamp to `1`: the rate gate runs (and records the
time) before the length check, not after. -/
theorem C8_counterexample :
    ¬ ((parse_buffer ⟨List.replicate 10 0, 0, 0⟩ 1).1.lastProcessTime = (0 : ℚ)) := by
  rw [parse_buffer_small ⟨List.replicate 10 0, 0, 0⟩ 1 gate_0_1 (by decide)]
  norm_num

/-- C8 (amended): a `parse_buffer` call on a buffer of fewer than 36 bytes
emits no frame and leaves the buffer and frame count unchanged, but the rate
gate runs first: a non-gated call updates the last-processed timestamp to
`now` (a gated call leaves it unchanged). -/
theorem C8_short_buffer (st : SyncState) (now : ℚ)
    (hlen : st.buffer.length < 36) :
    (parse_buffer st now).2 = none ∧
    (parse_buffer st now).1.buffer = st.buffer ∧
    (parse_buffer st now).1.frameCount = st.frameCount ∧
    (parse_buffer st now).1.lastProcessTime =
      (if now - st.lastProcessTime < minFrameInterval then st.lastProcessTime
       else now) := by
  by_cases hg : now - st.lastProcessTime < minFrameInterval
  · rw [parse_buffer_gated st now hg]
    simp [hg]
  · rw [parse_buffer_small st now (not_lt.mp hg) hlen]
    simp [hg]

/-- Witness for C8 (amended) at a 10-byte buffer and a non-gated instant. -/
theorem C8_short_buffer_witness :
    (List.replicate 10 0 : List Nat).length < 36 ∧
    (parse_buffer ⟨List.replicate 10 0, 0, 0⟩ 1).2 = none ∧
    (parse_buffer ⟨List.replicate 10 0, 0, 0⟩ 1).1.buffer = List.replicate 10 0 ∧
    (parse_buffer ⟨List.replicate 10 0, 0, 0⟩ 1).1.lastProcessTime =
      (if (1 : ℚ) - 0 < minFrameInterval then 0 else 1) := by
  exact ⟨by decide,
    (C8_short_buffer ⟨List.replicate 10 0, 0, 0⟩ 1 (by decide)).1,
    (C8_short_buffer ⟨List.replicate 10 0, 0, 0⟩ 1 (by decide)).2.1,
    (C8_short_buffer ⟨List.replicate 10 0, 0, 0⟩ 1 (by decide)).2.2.2⟩

/-- C10: on an open connection the freeform encoder classifies the empty
string as hex (the all-hex-digits test is vacuously true), decodes it to
zero bytes and reports success, rather than rejecting the empty send. -/
theorem C10_empty_send :
    (stripSpaces []).all isHexChar = true ∧ send_data [] = some [] := by
  decide

/-- C6: a single `parse_buffer` call emits at most one frame — its emission
type is an `Option`, so this is structural — and when the buffer holds two
complete well-formed frames back to back, a non-gated call emits exactly the
first one while the second stays in the buffer, from which a later
non-gated call emits it. -/
theorem C6_single_frame_per_call (f1 f2 : List Nat) (t0 t1 t2 : ℚ) (fc : Nat)
    (h1len : f1.length = 36) (h1a : f1.getD 34 0 = 0x80) (h1b : f1.getD 35 0 = 0x7F)
    (h2len : f2.length = 36) (h2a : f2.getD 34 0 = 0x80) (h2b : f2.getD 35 0 = 0x7F)
    (hg1 : minFrameInterval ≤ t1 - t0) (hg2 : minFrameInterval ≤ t2 - t1) :
    (parse_buffer ⟨f1 ++ f2, t0, fc⟩ t1).2 = process_frame f1 ∧
    (parse_buffer ⟨f1 ++ f2, t0, fc⟩ t1).1.buffer = f2 ∧
    (parse_buffer (parse_buffer ⟨f1 ++ f2, t0, fc⟩ t1).1 t2).2 = process_frame f2 := by
  have hpair1 : pairAt (f1 ++ f2) 34 :=
    pairAt_append_left f1 f2 34 ⟨by omega, h1a, h1b⟩
  have hres1 := parse_buffer_extract ⟨f1 ++ f2, t0, fc⟩ t1 34 hg1 hpair1
    (le_refl 34) (fun j hj _ => hj)
  have he1 : ((f1 ++ f2).drop (34 - 34)).take 36 = f1 := by
    rw [show (34 : Nat) - 34 = 0 from rfl, List.drop_zero, ← h1len, List.take_left]
  have he2 : (f1 ++ f2).drop (34 + 2) = f2 := by
    rw [show (34 + 2 : Nat) = f1.length from by omega]
    exact List.drop_left f1 f2
  have hA : (parse_buffer ⟨f1 ++ f2, t0, fc⟩ t1).2 = process_frame f1 := by
    rw [hres1]
    show process_frame (((f1 ++ f2).drop (34 - 34)).take 36) = process_frame f1
    rw [he1]
  have hB : (parse_buffer ⟨f1 ++ f2, t0, fc⟩ t1).1 = ⟨f2, t1, fc + 1⟩ := by
    rw [hres1]
    show (⟨(f1 ++ f2).drop (34 + 2), t1, fc + 1⟩ : SyncState) = _
    rw [he2]
  have hpair2 : pairAt f2 34 := ⟨by omega, h2a, h2b⟩
  have hres2 := parse_buffer_extract ⟨f2, t1, fc + 1⟩ t2 34 hg2 hpair2
    (le_refl 34) (fun j hj _ => hj)
  have he3 : (f2.drop (34 - 34)).take 36 = f2 := by
    rw [show (34 : Nat) - 34 = 0 from rfl, List.drop_zero]
    exact List.take_of_length_le (by omega)
  refine ⟨hA, by rw [hB], ?_⟩
  rw [hB, hres2]
  show process_frame ((f2.drop (34 - 34)).take 36) = process_frame f2
  rw [he3]

/-- Witness for C6 at the two concrete frames `exFrameA ++ exFrameB`. -/
theorem C6_single_frame_per_call_witness :
    (parse_buffer ⟨exFrameA ++ exFrameB, 0, 0⟩ 1).2 = process_frame exFrameA ∧
    (parse_buffer ⟨exFrameA ++ exFrameB, 0, 0⟩ 1).1.buffer = exFrameB ∧
    (parse_buffer (parse_buffer ⟨exFrameA ++ exFrameB, 0, 0⟩ 1).1 2).2 =
      process_frame exFrameB :=
  C6_single_frame_per_call exFrameA exFrameB 0 1 2 0 (by decide) (by decide)
    (by decide) (by decide) (by decide) (by decide) gate_0_1 gate_1_2

/-- C3 (counterexample): the claim quantifies over arbitrary noise, but when
the 36 bytes of noise themselves end in `0x80 0x7F` the scan fires inside
the noise: the call emits the decoded noise block instead of the real frame
and leaves the real frame in the buffer. -/
theorem C3_counterexample :
    ¬ ((parse_buffer ⟨exStream ++ exRealFrame, 0, 0⟩ 1).2 =
          process_frame exRealFrame ∧
       (parse_buffer ⟨exStream ++ exRealFrame, 0, 0⟩ 1).1.buffer = []) := by
  rw [parse_buffer_extract ⟨exStream ++ exRealFrame, 0, 0⟩ 1 34 gate_0_1
    (by decide) (le_refl 34) (fun j hj _ => hj)]
  decide

/-- C3 (amended): for a buffer of noise followed by one well-formed 36-byte
frame, *provided the only delimiter pair at an index ≥ 34 is the frame's own
trailer*, a single non-gated `parse_buffer` call emits exactly that frame's
decode and leaves an empty buffer (all preceding noise removed). -/
theorem C3_noise_then_frame (noise frame : List Nat) (t0 t1 : ℚ) (fc : Nat)
    (hflen : frame.length = 36)
    (h34 : frame.getD 34 0 = 0x80) (h35 : frame.getD 35 0 = 0x7F)
    (hg : minFrameInterval ≤ t1 - t0)
    (hnoise : ∀ j, j < noise.length + 34 → pairAt (noise ++ frame) j → j < 34) :
    (parse_buffer ⟨noise ++ frame, t0, fc⟩ t1).2 = process_frame frame ∧
    (parse_buffer ⟨noise ++ frame, t0, fc⟩ t1).1.buffer = [] := by
  have hpair : pairAt (noise ++ frame) (noise.length + 34) :=
    (pairAt_append_add noise frame 34).mpr ⟨by omega, h34, h35⟩
  have hres := parse_buffer_extract ⟨noise ++ frame, t0, fc⟩ t1
    (noise.length + 34) hg hpair (by omega) hnoise
  have h1 : noise.length + 34 - 34 = noise.length := by omega
  have h2 : (noise ++ frame).drop noise.length = frame := List.drop_left noise frame
  have h3 : frame.take 36 = frame := List.take_of_length_le (by omega)
  have h4 : (noise ++ frame).drop (noise.length + 34 + 2) = [] := by
    rw [show noise.length + 34 + 2 = noise.length + 36 by omega,
      drop_append_add noise frame 36]
    exact List.drop_eq_nil_of_le (by omega)
  refine ⟨?_, ?_⟩
  · rw [hres]
    show process_frame
      (((noise ++ frame).drop (noise.length + 34 - 34)).take 36) = process_frame frame
    rw [h1, h2, h3]
  · rw [hres]
    show (noise ++ frame).drop (noise.length + 34 + 2) = []
    exact h4

/-- Witness for C3 (amended): three noise bytes before `exFrameB`. -/
theorem C3_noise_then_frame_witness :
    (∀ j, j < exNoise.length + 34 → pairAt (exNoise ++ exFrameB) j → j < 34) ∧
    (parse_buffer ⟨exNoise ++ exFrameB, 0, 0⟩ 1).2 = process_frame exFrameB ∧
    (parse_buffer ⟨exNoise ++ exFrameB, 0, 0⟩ 1).1.buffer = [] := by
  have h := C3_noise_then_frame exNoise exFrameB 0 1 0 (by decide) (by decide)
    (by decide) gate_0_1 (by decide)
  exact ⟨by decide, h.1, h.2⟩

/-- C4 (counterexample): for the text `"h i"` — which contains a space but
whose space-stripped form `"hi"` is not hex — the claim demands the UTF-8
bytes of the text; the code instead takes the hex path (any string with a
space is routed there), `bytes.fromhex` fails, and no bytes are sent. -/
theorem C4_counterexample :
    ¬ (send_data exMixed = some (utf8Encode exMixed)) := by
  decide

/-- C4 (amended): if the space-stripped text is all hex digits, `send_data`
hex-decodes it (with odd-length zero padding); if the text has no space and
its stripped form is not all-hex, the UTF-8 bytes are sent verbatim; but if
the text contains a space and its stripped form holds a character that is
neither a hex digit nor ASCII whitespace, the hex path is still taken (the
guard is a space OR all-hex), `bytes.fromhex` raises, and nothing is
written — not the claimed UTF-8 fallback.  (Whitespace other than spaces is
skipped by `bytes.fromhex` itself, so e.g. a tab between hex pairs still
decodes.) -/
theorem C4_freeform_encoder (data : List Char) :
    ((stripSpaces data).all isHexChar = true →
      send_data data = some (hexPairsDecode (padEven (stripSpaces data)))) ∧
    (data.contains spaceChar = false → (stripSpaces data).all isHexChar = false →
      send_data data = some (utf8Encode data)) ∧
    (data.contains spaceChar = true →
      (∃ b ∈ stripSpaces data, isHexChar b = false ∧ isAsciiWhitespace b = false) →
      send_data data = none) := by
  refine ⟨?_, ?_, ?_⟩
  · intro hall
    unfold send_data
    rw [hall, Bool.or_true, if_pos rfl]
    exact fromhex_of_allHex _ (padEven_all_true _ hall) (padEven_even _)
  · intro hc hall
    have hc' : ¬ spaceChar ∈ data := by simpa using hc
    simp [send_data, hall, hc']
  · intro hc hbad
    have hc' : spaceChar ∈ data := by simpa using hc
    obtain ⟨b, hb, h1, h2⟩ := hbad
    have hfail := fromhex_of_bad_char (padEven (stripSpaces data))
      ⟨b, mem_padEven _ hb, h1, h2⟩
    simp [send_data, hc', hfail]

/-- Witness for C4 (amended): the hex branch at `"01 04"`, the UTF-8 branch
at `"hello"`, and the failing hex branch at `"h i"`. -/
theorem C4_freeform_encoder_witness :
    ((stripSpaces exHexText).all isHexChar = true ∧
      send_data exHexText = some [1, 4]) ∧
    (exHello.contains spaceChar = false ∧
      (stripSpaces exHello).all isHexChar = false ∧
      send_data exHello = some (utf8Encode exHello)) ∧
    (exMixed.contains spaceChar = true ∧ send_data exMixed = none) := by
  refine ⟨⟨by decide, ?_⟩, ⟨by decide, by decide, ?_⟩, ⟨by decide, ?_⟩⟩
  · exact ((C4_freeform_encoder exHexText).1 (by decide)).trans (by decide)
  · exact (C4_freeform_encoder exHello).2.1 (by decide) (by decide)
  · exact (C4_freeform_encoder exMixed).2.2 (by decide)
      ⟨'h', by decide, by decide, by decide⟩

/-- C9: whenever a non-gated `parse_buffer` call's scan matches (at index
`i`), the extracted frame `buffer[i-34 : i+2]` has exactly 36 bytes and its
own bytes 34/35 *are* the matched delimiter `0x80 0x7F`; the call hands
exactly this frame to the decoder, counting it and emitting its decode (the
length-mismatch `else` branch is never taken), and that decode succeeds —
so the decoder's bad-length and bad-trailer branches are unreachable on
synchronizer-extracted frames.  And `process_frame` on any frame with a
wrong trailer drops it, emitting no record. -/
theorem C9_extraction_invariant :
    (∀ (st : SyncState) (now : ℚ) (i : Nat),
      minFrameInterval ≤ now - st.lastProcessTime →
      scanTrailer st.buffer 0 = some i →
      ((st.buffer.drop (i - 34)).take 36).length = 36 ∧
      ((st.buffer.drop (i - 34)).take 36).getD 34 0 = 0x80 ∧
      ((st.buffer.drop (i - 34)).take 36).getD 35 0 = 0x7F ∧
      parse_buffer st now =
        (⟨st.buffer.drop (i + 2), now, st.frameCount + 1⟩,
          process_frame ((st.buffer.drop (i - 34)).take 36)) ∧
      (∃ r : Record, process_frame ((st.buffer.drop (i - 34)).take 36) = some r)) ∧
    (∀ frame : List Nat, ¬(frame.getD 34 0 = 0x80 ∧ frame.getD 35 0 = 0x7F) →
      process_frame frame = none) := by
  constructor
  · intro st now i hg hscan
    obtain ⟨j, hij, hpj, h34⟩ := scanTrailer_some_inv st.buffer 0 i hscan
    have hji : j = i := by omega
    subst hji
    have hlt := hpj.1
    have hflen : ((st.buffer.drop (j - 34)).take 36).length = 36 := by
      rw [List.length_take, List.length_drop]
      omega
    have hg34 : ((st.buffer.drop (j - 34)).take 36).getD 34 0 = 0x80 := by
      rw [getD_take_lt _ 36 34 (by omega), getD_drop_add,
        show j - 34 + 34 = j by omega]
      exact hpj.2.1
    have hg35 : ((st.buffer.drop (j - 34)).take 36).getD 35 0 = 0x7F := by
      rw [getD_take_lt _ 36 35 (by omega), getD_drop_add,
        show j - 34 + 35 = j + 1 by omega]
      exact hpj.2.2
    have hpb : parse_buffer st now =
        (⟨st.buffer.drop (j + 2), now, st.frameCount + 1⟩,
          process_frame ((st.buffer.drop (j - 34)).take 36)) := by
      simp [parse_buffer, not_lt.mpr hg, (by omega : ¬ st.buffer.length < 36),
        hscan, (by omega : j + 2 ≤ st.buffer.length), hflen]
      omega
    refine ⟨hflen, hg34, hg35, hpb, ?_⟩
    refine ⟨⟨decodeChannels ((st.buffer.drop (j - 34)).take 36),
      ((st.buffer.drop (j - 34)).take 36).getD 32 0,
      ((st.buffer.drop (j - 34)).take 36).getD 33 0⟩, ?_⟩
    unfold process_frame
    rw [if_neg (by simp [hflen]), if_pos ⟨hg34, hg35⟩]
  · intro frame hbad
    unfold process_frame
    split <;> rfl

/-- Witness for C9: the scan on the buffer `exFrameA` matches at index 34,
and the invariant instantiates there; a trailerless 36-byte frame is
dropped. -/
theorem C9_extraction_invariant_witness :
    (((exFrameA.drop (34 - 34)).take 36).length = 36 ∧
      ((exFrameA.drop (34 - 34)).take 36).getD 34 0 = 0x80 ∧
      ((exFrameA.drop (34 - 34)).take 36).getD 35 0 = 0x7F ∧
      parse_buffer ⟨exFrameA, 0, 0⟩ 1 =
        (⟨exFrameA.drop (34 + 2), 1, 0 + 1⟩,
          process_frame ((exFrameA.drop (34 - 34)).take 36)) ∧
      (∃ r : Record, process_frame ((exFrameA.drop (34 - 34)).take 36) = some r)) ∧
    process_frame (List.replicate 36 0) = none :=
  ⟨C9_extraction_invariant.1 ⟨exFrameA, 0, 0⟩ 1 34 gate_0_1 (by decide),
    C9_extraction_invariant.2 (List.replicate 36 0) (by decide)⟩

/-- C1 (counterexample): a stream holding two complete frames emits one
record when fed as a single chunk (a single `trySync` extracts at most one
frame and the run loop only re-parses on new data), but two records when fed
as two chunks: chunking does change the emitted sequence. -/
theorem C1_counterexample :
    ¬ ((feed ⟨[], 0, 0⟩ [(exStream ++ exStream, 1)]).2 =
       (feed ⟨[], 0, 0⟩ [(exStream, 1), (exStream, 2)]).2) := by
  simp only [feed, ingest, List.nil_append,
    parse_buffer_extract ⟨exStream ++ exStream, 0, 0⟩ 1 34 gate_0_1 (by decide)
      (le_refl 34) (fun j hj _ => hj),
    parse_buffer_extract ⟨exStream, 0, 0⟩ 1 34 gate_0_1 (by decide)
      (le_refl 34) (fun j hj _ => hj),
    parse_buffer_extract ⟨exStream.drop (34 + 2) ++ exStream, 1, 0 + 1⟩ 2 34
      gate_1_2 (by decide) (le_refl 34) (fun j hj _ => hj)]
  decide

/-- C1 (amended): chunk-invariance of the emitted records holds for streams
whose only actionable delimiter is the trailer of a single frame at the very
end (`goodStream`): any split into nonempty chunks, each ingested by a
non-gated call, emits exactly the decode of that final frame — the same
records as feeding the whole stream at once (the right-hand side does not
depend on the chunking).  For general streams the property fails, since at
most one frame is emitted per call (see the counterexample). -/
theorem C1_chunking_invariance (s : List Nat) (ps : List (List Nat × ℚ))
    (t0 : ℚ) (fc : Nat)
    (hgood : goodStream s)
    (hne : ∀ p ∈ ps, p.1 ≠ [])
    (hjoin : (ps.map Prod.fst).flatten = s)
    (hgate : nonGatedTimes t0 ps) :
    (feed ⟨[], t0, fc⟩ ps).2 = (process_frame (s.drop (s.length - 36))).toList := by
  have hps : ps ≠ [] := by
    intro h
    subst h
    have h1 : s = [] := by simpa using hjoin.symm
    have h2 := hgood.1
    rw [h1] at h2
    simp at h2
  exact feed_goodStream_aux s hgood ps [] [] t0 fc hps hne hgate
    (by simpa using hjoin) (Or.inl rfl)

/-- Witness for C1 (amended): `exStream` (one frame) split into chunks of 10
and 26 bytes. -/
theorem C1_chunking_invariance_witness :
    goodStream exStream ∧
    (feed ⟨[], 0, 0⟩ [(exStream.take 10, 1), (exStream.drop 10, 2)]).2 =
      (process_frame (exStream.drop (exStream.length - 36))).toList :=
  ⟨by decide,
    C1_chunking_invariance exStream [(exStream.take 10, 1), (exStream.drop 10, 2)]
      0 0 (by decide) (by decide) (by decide) nonGated_exStream_split⟩

end SerialsMonitor
